import Mathlib

/-!
Verification of the rustpass vault core (`src/main.rs`) against its
specification.  Byte strings are modelled as `List Nat`.  The external
collaborators (Argon2id key derivation, ChaCha20-Poly1305 AEAD, serde_json
serialization, the OS random source) are not part of the repository; they are
modelled from the specification's contracts for them (§4.1, §4.2, §6) and each
such definition says so in its doc comment.  Everything else is translated
directly from `src/main.rs`.
-/

namespace Rustpass

/-- A byte string; bytes are natural numbers. -/
abbrev Bytes := List Nat

/-- Argon2 cost parameters (`argon2::Params` in the source): memory cost (KiB),
time cost (iterations), parallelism — each a `u32` in the source. -/
structure Params where
  m_cost : Nat
  t_cost : Nat
  p_cost : Nat
  deriving DecidableEq, Repr

/-- Modelled from the spec: the key-derivation function's validity constraints
on cost parameters ("must satisfy the derivation function's validity
constraints (e.g., memory cost above a minimum floor)").  The source delegates
this check to `argon2::Params::new`, which lives outside the repository.  The
fields are `u32` in the source, hence the `4294967296` upper bounds; the floor
values are the Argon2 minima (memory ≥ 8 KiB, at least one pass, at least one
lane). -/
def paramsOk (m t p : Nat) : Bool :=
  decide (8 ≤ m) && decide (m < 4294967296) &&
    decide (1 ≤ t) && decide (t < 4294967296) &&
    decide (1 ≤ p) && decide (p < 4294967296)

/-- Modelled from the spec (§4.1): `derive(password, salt, params)` is
deterministic — "identical (password, salt, params) always yields the identical
key; any change to any input yields an unrelated key".  The source's
`derive_key_from_password` calls Argon2id from the `argon2` crate, outside the
repository; the symbolic key records exactly the derivation inputs, which makes
derivation injective as the contract demands. -/
structure DerivedKey where
  password : Bytes
  salt : Bytes
  params : Params
  deriving DecidableEq, Repr

/-- The key-derivation step of `src/main.rs` (`derive_key_from_password`),
with the Argon2id computation replaced by the symbolic key above. -/
def derive_key_from_password (password salt : Bytes) (params : Params) : DerivedKey :=
  ⟨password, salt, params⟩

/-- Modelled from the spec (§4.2): the authentication tag appended by `seal`.
Symbolically the tag records the sealing key (length-prefixed password, salt,
cost parameters) and nonce, so that `openAEAD` accepts exactly under the key
and nonce used for sealing — the contract "any change to any input yields an
unrelated key" plus "`open` must fail closed". -/
def tagOf (key : DerivedKey) (nonce : Bytes) : Bytes :=
  key.password.length ::
    (key.password ++ key.salt ++
      [key.params.m_cost, key.params.t_cost, key.params.p_cost] ++ nonce)

/-- Modelled from the spec (§4.2): `seal(plaintext, key, nonce) ->
ciphertext‖tag`.  The source uses `chacha20poly1305`, outside the repository;
the model length-prefixes the plaintext and appends the symbolic tag. -/
def sealAEAD (key : DerivedKey) (nonce plaintext : Bytes) : Bytes :=
  plaintext.length :: plaintext ++ tagOf key nonce

/-- Modelled from the spec (§4.2): `open(ciphertext‖tag, key, nonce) ->
plaintext | AuthenticationFailure`; fails closed, returning the plaintext only
when the appended tag matches the given key and nonce. -/
def openAEAD (key : DerivedKey) (nonce ct : Bytes) : Option Bytes :=
  match ct with
  | [] => none
  | n :: rest =>
      if n ≤ rest.length ∧ rest.drop n = tagOf key nonce then
        some (rest.take n)
      else
        none

/-- Little-endian 4-byte encoding of a `u32` (`u32::to_le_bytes` in the
source). -/
def le32 (n : Nat) : Bytes :=
  [n % 256, n / 256 % 256, n / 65536 % 256, n / 16777216 % 256]

/-- The `read_u32` closure of `decrypt_vault`: `u32::from_le_bytes` on the four
bytes at offset `i` (out-of-range reads yield 0; the source only calls it in
range). -/
def read_u32 (data : Bytes) (i : Nat) : Nat :=
  data.getD i 0 + 256 * data.getD (i + 1) 0 +
    65536 * data.getD (i + 2) 0 + 16777216 * data.getD (i + 3) 0

/-- `const MAGIC: &[u8] = b"RPSS"` — the bytes of `R`, `P`, `S`, `S`. -/
def MAGIC : Bytes := [82, 80, 83, 83]

/-- `const VERSION: u8 = 1`. -/
def VERSION : Nat := 1

/-- The `Entry` struct of the source; strings (`id`, `name`, `username`,
`password`, `updated_at`) and optional strings (`url`, `notes`) are byte
strings. -/
structure Entry where
  id : Bytes
  name : Bytes
  username : Bytes
  password : Bytes
  url : Option Bytes
  notes : Option Bytes
  updated_at : Bytes
  deriving DecidableEq, Repr

/-- The `Vault` struct of the source: an ordered list of entries. -/
structure Vault where
  entries : List Entry
  deriving DecidableEq, Repr

/-- Modelled from the spec (§6, structured serialization collaborator): the
source serializes a `Vault` with `serde_json::to_vec`, outside the repository;
the contract only requires "exact round-trip fidelity including optional
fields".  Strings are length-prefixed. -/
def serStr (s : Bytes) : Bytes := s.length :: s

/-- Modelled from the spec (§6): serialization of an optional string — a
presence byte followed by the string when present. -/
def serOpt : Option Bytes → Bytes
  | none => [0]
  | some s => 1 :: serStr s

/-- Modelled from the spec (§6): serialization of an `Entry`, field by field in
declaration order. -/
def serEntry (e : Entry) : Bytes :=
  serStr e.id ++ serStr e.name ++ serStr e.username ++ serStr e.password ++
    serOpt e.url ++ serOpt e.notes ++ serStr e.updated_at

/-- Modelled from the spec (§6): serialization of a `Vault` — entry count then
the serialized entries. -/
def serVault (v : Vault) : Bytes :=
  v.entries.length :: (v.entries.map serEntry).flatten

/-- Modelled from the spec (§6): decoder for `serStr`; returns the string and
the remaining input. -/
def deStr : Bytes → Option (Bytes × Bytes)
  | [] => none
  | n :: rest =>
      if n ≤ rest.length then some (rest.take n, rest.drop n) else none

/-- Modelled from the spec (§6): decoder for `serOpt`. -/
def deOpt : Bytes → Option (Option Bytes × Bytes)
  | [] => none
  | 0 :: rest => some (none, rest)
  | 1 :: rest => (deStr rest).map fun p => (some p.1, p.2)
  | _ :: _ => none

/-- Modelled from the spec (§6): decoder for `serEntry`. -/
def deEntry (l : Bytes) : Option (Entry × Bytes) := do
  let (id, l) ← deStr l
  let (name, l) ← deStr l
  let (username, l) ← deStr l
  let (password, l) ← deStr l
  let (url, l) ← deOpt l
  let (notes, l) ← deOpt l
  let (upd, l) ← deStr l
  pure (⟨id, name, username, password, url, notes, upd⟩, l)

/-- Modelled from the spec (§6): decoder for a counted sequence of entries. -/
def deEntries : Nat → Bytes → Option (List Entry × Bytes)
  | 0, l => some ([], l)
  | n + 1, l => do
      let (e, l) ← deEntry l
      let (es, l) ← deEntries n l
      pure (e :: es, l)

/-- Modelled from the spec (§6): the deserializer used as the model of
`serde_json::from_slice::<Vault>`; like serde_json it rejects trailing
input. -/
def deVault (l : Bytes) : Option Vault :=
  match l with
  | [] => none
  | n :: rest =>
      match deEntries n rest with
      | some (es, []) => some ⟨es⟩
      | _ => none

/-- The 16 salt bytes drawn from `OsRng` by `encrypt_vault`; the operating
system random source is modelled as a stream `rng : Nat → Nat` of draws, taken
modulo 256 since the source fills a `[u8; 16]`. -/
def saltOf (rng : Nat → Nat) : Bytes :=
  (List.range 16).map fun i => rng i % 256

/-- The 12 nonce bytes drawn from `OsRng` by `encrypt_vault`, after the salt
draws. -/
def nonceOf (rng : Nat → Nat) : Bytes :=
  (List.range 12).map fun i => rng (16 + i) % 256

/-- `encrypt_vault` of the source: draw salt, derive the key, draw nonce,
serialize, seal, then assemble `MAGIC ++ [VERSION] ++ m ++ t ++ p ++ salt ++
nonce ++ ciphertext` with the three cost parameters little-endian. -/
def encrypt_vault (vault : Vault) (password : Bytes) (params : Params)
    (rng : Nat → Nat) : Bytes :=
  let salt := saltOf rng
  let key := derive_key_from_password password salt params
  let nonce := nonceOf rng
  let plaintext := serVault vault
  let ciphertext := sealAEAD key nonce plaintext
  MAGIC ++ [VERSION] ++ le32 params.m_cost ++ le32 params.t_cost ++
    le32 params.p_cost ++ salt ++ nonce ++ ciphertext

/-- The error kinds of `decrypt_vault`.  The source reports them as distinct
`anyhow` messages ("file too small", "bad magic", "unsupported version",
"argon2 params invalid", "aead decrypt failed", serde error); the names follow
the spec's taxonomy (§7). -/
inductive VaultError where
  | TruncatedFile
  | BadMagic
  | UnsupportedVersion
  | InvalidParameters
  | AuthenticationFailure
  | MalformedPayload
  deriving DecidableEq, Repr

/-- `decrypt_vault` of the source.  45 is the source's minimum length
`4 + 1 + 4*3 + 16 + 12`; the offsets 5/9/13 (cost parameters), 17 (salt),
33 (nonce), 45 (ciphertext) follow the source's running index. -/
def decrypt_vault (data password : Bytes) : Except VaultError Vault :=
  if data.length < 45 then .error .TruncatedFile
  else if data.take 4 ≠ MAGIC then .error .BadMagic
  else if data.getD 4 0 ≠ VERSION then .error .UnsupportedVersion
  else if ¬ paramsOk (read_u32 data 5) (read_u32 data 9) (read_u32 data 13) then
    .error .InvalidParameters
  else
    match openAEAD
        (derive_key_from_password password ((data.drop 17).take 16)
          ⟨read_u32 data 5, read_u32 data 9, read_u32 data 13⟩)
        ((data.drop 33).take 12) (data.drop 45) with
    | none => .error .AuthenticationFailure
    | some plaintext =>
        match deVault plaintext with
        | none => .error .MalformedPayload
        | some vault => .ok vault

/-- `load_or_init` of the source; the filesystem read is modelled by an
`Option Bytes` (`none` when `path.exists()` is false). -/
def load_or_init (file : Option Bytes) (password : Bytes) :
    Except VaultError Vault :=
  match file with
  | some data => decrypt_vault data password
  | none => .ok ⟨[]⟩

/-- The upsert performed by `Cmd::Add` in the source:
`v.entries.retain(|e| e.name != name)` followed by `v.entries.push(entry)`. -/
def upsert (v : Vault) (r : Entry) : Vault :=
  ⟨(v.entries.filter fun e => e.name ≠ r.name) ++ [r]⟩

/-- The lookup performed by `Cmd::Get` in the source:
`v.entries.iter().find(|e| e.name == name)`. -/
def findEntry (v : Vault) (name : Bytes) : Option Entry :=
  v.entries.find? fun e => e.name = name

/-- The generator's error kinds; the source reports them as `anyhow` messages
("len must be >= 4", "character pool empty"), named per the spec (§4.4). -/
inductive GenError where
  | InvalidLength
  | EmptyPool
  deriving DecidableEq, Repr

/-- `"abcdefghijklmnopqrstuvwxyz"` as bytes. -/
def LOWER_CHARS : Bytes :=
  [97, 98, 99, 100, 101, 102, 103, 104, 105, 106, 107, 108, 109,
   110, 111, 112, 113, 114, 115, 116, 117, 118, 119, 120, 121, 122]

/-- `"ABCDEFGHIJKLMNOPQRSTUVWXYZ"` as bytes. -/
def UPPER_CHARS : Bytes :=
  [65, 66, 67, 68, 69, 70, 71, 72, 73, 74, 75, 76, 77,
   78, 79, 80, 81, 82, 83, 84, 85, 86, 87, 88, 89, 90]

/-- `"0123456789"` as bytes. -/
def DIGIT_CHARS : Bytes := [48, 49, 50, 51, 52, 53, 54, 55, 56, 57]

/-- The fixed symbol set of the source as bytes. -/
def SYMBOL_CHARS : Bytes :=
  [33, 64, 35, 36, 37, 94, 38, 42, 40, 41, 45, 95, 61, 43,
   91, 93, 123, 125, 59, 58, 44, 46, 60, 62, 47, 63, 126]

/-- The fixed ambiguous set of the source as bytes. -/
def AMBIGUOUS : Bytes :=
  [79, 48, 111, 49, 108, 73, 124, 96, 39, 34, 123, 125,
   91, 93, 40, 41, 47, 92, 59, 58, 46, 44, 60, 62]

/-- The `strip` closure of `generate_password`:
`s.retain(|c| !ambiguous.contains(c))`. -/
def stripAmb (s : Bytes) : Bytes :=
  s.filter fun c => c ∉ AMBIGUOUS

/-- The guaranteed-coverage loop of `generate_password`: one draw
(`rng.gen_range(0..p.len())`) from each pool in order; the draw counter is
threaded explicitly to model the stateful `OsRng`. -/
def pickFromPools (rng : Nat → Nat) : Nat → List Bytes → Bytes × Nat
  | ctr, [] => ([], ctr)
  | ctr, p :: ps =>
      let x := p.getD (rng ctr % p.length) 0
      let r := pickFromPools rng (ctr + 1) ps
      (x :: r.1, r.2)

/-- The fill loop of `generate_password`: `n` further uniform draws from the
union of the active pools. -/
def fillFrom (rng : Nat → Nat) (all : Bytes) : Nat → Nat → Bytes × Nat
  | ctr, 0 => ([], ctr)
  | ctr, n + 1 =>
      let x := all.getD (rng ctr % all.length) 0
      let r := fillFrom rng all (ctr + 1) n
      (x :: r.1, r.2)

/-- Fuelled random permutation: repeatedly draw an index and remove that
element.  The fuel starts at the list length, which suffices. -/
def shuffleGo (rng : Nat → Nat) : Nat → Nat → Bytes → Bytes
  | 0, _, _ => []
  | _ + 1, _, [] => []
  | fuel + 1, ctr, l@(_ :: _) =>
      let i := rng ctr % l.length
      l.getD i 0 :: shuffleGo rng fuel (ctr + 1) (l.eraseIdx i)

/-- Modelled from the spec (§4.4): "Randomly permute the full sequence" — the
source calls `SliceRandom::shuffle` from the `rand` crate, outside the
repository; modelled as repeated uniform removal, which permutes the input. -/
def shuffle (rng : Nat → Nat) (ctr : Nat) (l : Bytes) : Bytes :=
  shuffleGo rng l.length ctr l

/-- The active pools of `generate_password` (source lines 174–191): the
letter/digit pools, stripped of ambiguous characters unless allowed; the
symbol pool is stripped only when symbols are requested, and included only
then. -/
def activePools (lower0 upper0 digits0 symbols0 : Bytes)
    (use_symbols allow_ambiguous : Bool) : List Bytes :=
  let lower := if allow_ambiguous then lower0 else stripAmb lower0
  let upper := if allow_ambiguous then upper0 else stripAmb upper0
  let digits := if allow_ambiguous then digits0 else stripAmb digits0
  let symbols :=
    if allow_ambiguous then symbols0
    else if use_symbols then stripAmb symbols0 else symbols0
  [lower, upper, digits] ++ (if use_symbols then [symbols] else [])

/-- `generate_password` of the source with the four candidate pools as
parameters (the source hardcodes them; `generate_password` below instantiates
them).  Mirrors the source exactly: length check, active pool construction
with conditional ambiguity stripping, empty-pool check, one guaranteed draw
per pool, fill to `len`, final shuffle. -/
def generate_password_pools (lower0 upper0 digits0 symbols0 : Bytes)
    (len : Nat) (use_symbols allow_ambiguous : Bool) (rng : Nat → Nat) :
    Except GenError Bytes :=
  if len < 4 then .error .InvalidLength
  else
    let pools := activePools lower0 upper0 digits0 symbols0 use_symbols allow_ambiguous
    if pools.any (fun p => p.isEmpty) then .error .EmptyPool
    else
      let all := pools.flatten
      let pk := pickFromPools rng 0 pools
      let fl := fillFrom rng all pk.2 (len - pk.1.length)
      .ok (shuffle rng fl.2 (pk.1 ++ fl.1))

/-- `generate_password` of the source, with its hardcoded character pools. -/
def generate_password (len : Nat) (use_symbols allow_ambiguous : Bool)
    (rng : Nat → Nat) : Except GenError Bytes :=
  generate_password_pools LOWER_CHARS UPPER_CHARS DIGIT_CHARS SYMBOL_CHARS
    len use_symbols allow_ambiguous rng

/-! ### Serialization round-trip -/

theorem deStr_serStr (s r : Bytes) : deStr (serStr s ++ r) = some (s, r) := by
  simp [serStr, deStr, List.take_left, List.drop_left]

theorem deOpt_serOpt (o : Option Bytes) (r : Bytes) :
    deOpt (serOpt o ++ r) = some (o, r) := by
  cases o with
  | none => rfl
  | some s => simp [serOpt, deOpt, deStr_serStr]

theorem deEntry_serEntry (e : Entry) (r : Bytes) :
    deEntry (serEntry e ++ r) = some (e, r) := by
  simp [deEntry, serEntry, List.append_assoc, deStr_serStr, deOpt_serOpt]

theorem deEntries_serEntries (es : List Entry) (r : Bytes) :
    deEntries es.length ((es.map serEntry).flatten ++ r) = some (es, r) := by
  induction es generalizing r with
  | nil => rfl
  | cons e es ih =>
      simp [deEntries, List.append_assoc, deEntry_serEntry, ih]

theorem deVault_serVault (v : Vault) : deVault (serVault v) = some v := by
  obtain ⟨es⟩ := v
  have h := deEntries_serEntries es []
  rw [List.append_nil] at h
  simp [serVault, deVault, h]

/-! ### AEAD seal/open -/

theorem openAEAD_sealAEAD (key : DerivedKey) (nonce pt : Bytes) :
    openAEAD key nonce (sealAEAD key nonce pt) = some pt := by
  simp [sealAEAD, openAEAD, List.take_left, List.drop_left]

theorem openAEAD_ne_password (k k' : DerivedKey) (h : k.password ≠ k'.password)
    (nonce pt : Bytes) : openAEAD k' nonce (sealAEAD k nonce pt) = none := by
  rw [show openAEAD k' nonce (sealAEAD k nonce pt) =
      if pt.length ≤ (pt ++ tagOf k nonce).length ∧
          (pt ++ tagOf k nonce).drop pt.length = tagOf k' nonce then
        some ((pt ++ tagOf k nonce).take pt.length)
      else none from rfl]
  rw [if_neg]
  rintro ⟨-, h2⟩
  rw [List.drop_left] at h2
  simp only [tagOf, List.cons.injEq, List.append_assoc] at h2
  exact h ((List.append_inj h2.2 h2.1).1)

/-! ### Vault-file framing -/

/-- The assembled vault file as a function of its fields; `encrypt_vault`
produces exactly this shape. -/
def mkFile (m t p : Nat) (salt nonce ct : Bytes) : Bytes :=
  MAGIC ++ [VERSION] ++ le32 m ++ le32 t ++ le32 p ++ salt ++ nonce ++ ct

/-- The 17 header bytes before the salt. -/
def hdrBytes (m t p : Nat) : Bytes :=
  MAGIC ++ [VERSION] ++ le32 m ++ le32 t ++ le32 p

theorem hdrBytes_length (m t p : Nat) : (hdrBytes m t p).length = 17 := rfl

theorem encrypt_vault_eq_mkFile (v : Vault) (pw : Bytes) (c : Params)
    (rng : Nat → Nat) :
    encrypt_vault v pw c rng =
      mkFile c.m_cost c.t_cost c.p_cost (saltOf rng) (nonceOf rng)
        (sealAEAD (derive_key_from_password pw (saltOf rng) c) (nonceOf rng)
          (serVault v)) := rfl

theorem saltOf_length (rng : Nat → Nat) : (saltOf rng).length = 16 := by
  simp [saltOf]

theorem nonceOf_length (rng : Nat → Nat) : (nonceOf rng).length = 12 := by
  simp [nonceOf]

theorem mkFile_length (m t p : Nat) (salt nonce ct : Bytes) :
    (mkFile m t p salt nonce ct).length =
      17 + salt.length + nonce.length + ct.length := by
  simp only [mkFile, MAGIC, VERSION, le32, List.length_append, List.length_cons,
    List.length_nil]

theorem mkFile_group1 (m t p : Nat) (salt nonce ct : Bytes) :
    mkFile m t p salt nonce ct = hdrBytes m t p ++ (salt ++ (nonce ++ ct)) := by
  simp [mkFile, hdrBytes, List.append_assoc]

theorem mkFile_group2 (m t p : Nat) (salt nonce ct : Bytes) :
    mkFile m t p salt nonce ct =
      (hdrBytes m t p ++ salt) ++ (nonce ++ ct) := by
  simp [mkFile, hdrBytes, List.append_assoc]

theorem mkFile_group3 (m t p : Nat) (salt nonce ct : Bytes) :
    mkFile m t p salt nonce ct =
      ((hdrBytes m t p ++ salt) ++ nonce) ++ ct := by
  simp [mkFile, hdrBytes, List.append_assoc]

theorem mkFile_read5 (m t p : Nat) (salt nonce ct : Bytes)
    (hm : m < 4294967296) : read_u32 (mkFile m t p salt nonce ct) 5 = m := by
  have h : read_u32 (mkFile m t p salt nonce ct) 5 =
      m % 256 + 256 * (m / 256 % 256) + 65536 * (m / 65536 % 256) +
        16777216 * (m / 16777216 % 256) := rfl
  rw [h]
  omega

theorem mkFile_read9 (m t p : Nat) (salt nonce ct : Bytes)
    (ht : t < 4294967296) : read_u32 (mkFile m t p salt nonce ct) 9 = t := by
  have h : read_u32 (mkFile m t p salt nonce ct) 9 =
      t % 256 + 256 * (t / 256 % 256) + 65536 * (t / 65536 % 256) +
        16777216 * (t / 16777216 % 256) := rfl
  rw [h]
  omega

theorem mkFile_read13 (m t p : Nat) (salt nonce ct : Bytes)
    (hp : p < 4294967296) : read_u32 (mkFile m t p salt nonce ct) 13 = p := by
  have h : read_u32 (mkFile m t p salt nonce ct) 13 =
      p % 256 + 256 * (p / 256 % 256) + 65536 * (p / 65536 % 256) +
        16777216 * (p / 16777216 % 256) := rfl
  rw [h]
  omega

theorem mkFile_salt (m t p : Nat) (salt nonce ct : Bytes)
    (hs : salt.length = 16) :
    ((mkFile m t p salt nonce ct).drop 17).take 16 = salt := by
  rw [mkFile_group1]
  rw [show (17 : Nat) = (hdrBytes m t p).length from rfl, List.drop_left]
  rw [show (16 : Nat) = salt.length from hs.symm, List.take_left]

theorem mkFile_nonce (m t p : Nat) (salt nonce ct : Bytes)
    (hs : salt.length = 16) (hn : nonce.length = 12) :
    ((mkFile m t p salt nonce ct).drop 33).take 12 = nonce := by
  rw [mkFile_group2]
  have h33 : (hdrBytes m t p ++ salt).length = 33 := by
    simp [List.length_append, hdrBytes_length, hs]
  rw [show (33 : Nat) = (hdrBytes m t p ++ salt).length from h33.symm,
    List.drop_left]
  rw [show (12 : Nat) = nonce.length from hn.symm, List.take_left]

theorem mkFile_ct (m t p : Nat) (salt nonce ct : Bytes)
    (hs : salt.length = 16) (hn : nonce.length = 12) :
    (mkFile m t p salt nonce ct).drop 45 = ct := by
  rw [mkFile_group3]
  have h45 : ((hdrBytes m t p ++ salt) ++ nonce).length = 45 := by
    simp [List.length_append, hdrBytes_length, hs, hn]
  rw [show (45 : Nat) = ((hdrBytes m t p ++ salt) ++ nonce).length from h45.symm,
    List.drop_left]

theorem decrypt_mkFile (m t p : Nat) (salt nonce ct pw : Bytes)
    (hs : salt.length = 16) (hn : nonce.length = 12)
    (hm : m < 4294967296) (ht : t < 4294967296) (hp : p < 4294967296) :
    decrypt_vault (mkFile m t p salt nonce ct) pw =
      if ¬ paramsOk m t p then .error .InvalidParameters
      else
        match openAEAD (derive_key_from_password pw salt ⟨m, t, p⟩) nonce ct with
        | none => .error .AuthenticationFailure
        | some plaintext =>
            match deVault plaintext with
            | none => .error .MalformedPayload
            | some vault => .ok vault := by
  have hlen : ¬ (mkFile m t p salt nonce ct).length < 45 := by
    rw [mkFile_length]
    omega
  have h4 : (mkFile m t p salt nonce ct).take 4 = MAGIC := rfl
  have hv : (mkFile m t p salt nonce ct).getD 4 0 = VERSION := rfl
  unfold decrypt_vault
  rw [if_neg hlen, h4, hv, mkFile_read5 m t p salt nonce ct hm,
    mkFile_read9 m t p salt nonce ct ht, mkFile_read13 m t p salt nonce ct hp,
    mkFile_salt m t p salt nonce ct hs, mkFile_nonce m t p salt nonce ct hs hn,
    mkFile_ct m t p salt nonce ct hs hn]
  rw [if_neg fun hc => hc rfl, if_neg fun hc => hc rfl]

/-! ### Claims about the codec -/

/-- C1: for every `Vault v`, password `p` and valid cost parameters `c`,
decoding the bytes produced by encoding `v` under `p` and `c` with the same
password yields `v`: `decrypt_vault (encrypt_vault v p c rng) p = .ok v`. -/
theorem decrypt_encrypt_roundtrip (v : Vault) (pw : Bytes) (c : Params)
    (rng : Nat → Nat) (hc : paramsOk c.m_cost c.t_cost c.p_cost = true) :
    decrypt_vault (encrypt_vault v pw c rng) pw = .ok v := by
  have hb : (8 ≤ c.m_cost ∧ c.m_cost < 4294967296) ∧
      (1 ≤ c.t_cost ∧ c.t_cost < 4294967296) ∧
      (1 ≤ c.p_cost ∧ c.p_cost < 4294967296) := by
    simp only [paramsOk, Bool.and_eq_true, decide_eq_true_eq] at hc
    tauto
  rw [encrypt_vault_eq_mkFile,
    decrypt_mkFile _ _ _ _ _ _ _ (saltOf_length rng) (nonceOf_length rng)
      hb.1.2 hb.2.1.2 hb.2.2.2,
    if_neg (not_not_intro hc),
    show (⟨c.m_cost, c.t_cost, c.p_cost⟩ : Params) = c from rfl,
    openAEAD_sealAEAD]
  simp [deVault_serVault]

theorem decrypt_encrypt_roundtrip_witness :
    paramsOk (Params.mk 65536 3 1).m_cost (Params.mk 65536 3 1).t_cost
        (Params.mk 65536 3 1).p_cost = true ∧
    decrypt_vault
        (encrypt_vault ⟨[⟨[7], [5], [2], [3], none, some [9], [4]⟩]⟩ [1]
          ⟨65536, 3, 1⟩ (fun _ => 0)) [1] =
      .ok ⟨[⟨[7], [5], [2], [3], none, some [9], [4]⟩]⟩ :=
  ⟨by decide,
    decrypt_encrypt_roundtrip ⟨[⟨[7], [5], [2], [3], none, some [9], [4]⟩]⟩
      [1] ⟨65536, 3, 1⟩ (fun _ => 0) (by decide)⟩

/-- C2: for every `Vault v`, valid cost parameters `c` and distinct passwords
`p1 ≠ p2`, decoding `encrypt_vault v p1 c rng` with `p2` yields
`AuthenticationFailure` and never a decoded vault. -/
theorem wrong_password_rejected (v : Vault) (p1 p2 : Bytes) (c : Params)
    (rng : Nat → Nat) (hc : paramsOk c.m_cost c.t_cost c.p_cost = true)
    (hne : p1 ≠ p2) :
    decrypt_vault (encrypt_vault v p1 c rng) p2 =
      .error .AuthenticationFailure := by
  have hb : (8 ≤ c.m_cost ∧ c.m_cost < 4294967296) ∧
      (1 ≤ c.t_cost ∧ c.t_cost < 4294967296) ∧
      (1 ≤ c.p_cost ∧ c.p_cost < 4294967296) := by
    simp only [paramsOk, Bool.and_eq_true, decide_eq_true_eq] at hc
    tauto
  rw [encrypt_vault_eq_mkFile,
    decrypt_mkFile _ _ _ _ _ _ _ (saltOf_length rng) (nonceOf_length rng)
      hb.1.2 hb.2.1.2 hb.2.2.2,
    if_neg (not_not_intro hc),
    show (⟨c.m_cost, c.t_cost, c.p_cost⟩ : Params) = c from rfl,
    openAEAD_ne_password (derive_key_from_password p1 (saltOf rng) c)
      (derive_key_from_password p2 (saltOf rng) c) hne (nonceOf rng)
      (serVault v)]

theorem wrong_password_rejected_witness :
    paramsOk (Params.mk 65536 3 1).m_cost (Params.mk 65536 3 1).t_cost
        (Params.mk 65536 3 1).p_cost = true ∧
    ([1] : Bytes) ≠ [2] ∧
    decrypt_vault (encrypt_vault ⟨[]⟩ [1] ⟨65536, 3, 1⟩ (fun _ => 0)) [2] =
      .error .AuthenticationFailure :=
  ⟨by decide, by decide,
    wrong_password_rejected ⟨[]⟩ [1] [2] ⟨65536, 3, 1⟩ (fun _ => 0)
      (by decide) (by decide)⟩

/-- C8: for every vault, password and valid cost parameters, the encoded file
has the specified little-endian layout: the magic tag at offset 0, the version
byte at offset 4, memory/time/parallelism costs as 4-byte little-endian values
at offsets 5, 9 and 13, the 16-byte salt at offset 17, the 12-byte nonce at
offset 33, and the AEAD ciphertext (tag included) from offset 45 to the
end. -/
theorem encrypt_vault_layout (v : Vault) (pw : Bytes) (c : Params)
    (rng : Nat → Nat) (hc : paramsOk c.m_cost c.t_cost c.p_cost = true) :
    (encrypt_vault v pw c rng).take 4 = MAGIC ∧
    (encrypt_vault v pw c rng).getD 4 0 = VERSION ∧
    ((encrypt_vault v pw c rng).drop 5).take 4 = le32 c.m_cost ∧
    read_u32 (encrypt_vault v pw c rng) 5 = c.m_cost ∧
    ((encrypt_vault v pw c rng).drop 9).take 4 = le32 c.t_cost ∧
    read_u32 (encrypt_vault v pw c rng) 9 = c.t_cost ∧
    ((encrypt_vault v pw c rng).drop 13).take 4 = le32 c.p_cost ∧
    read_u32 (encrypt_vault v pw c rng) 13 = c.p_cost ∧
    ((encrypt_vault v pw c rng).drop 17).take 16 = saltOf rng ∧
    (saltOf rng).length = 16 ∧
    ((encrypt_vault v pw c rng).drop 33).take 12 = nonceOf rng ∧
    (nonceOf rng).length = 12 ∧
    (encrypt_vault v pw c rng).drop 45 =
      sealAEAD (derive_key_from_password pw (saltOf rng) c) (nonceOf rng)
        (serVault v) := by
  have hb : (8 ≤ c.m_cost ∧ c.m_cost < 4294967296) ∧
      (1 ≤ c.t_cost ∧ c.t_cost < 4294967296) ∧
      (1 ≤ c.p_cost ∧ c.p_cost < 4294967296) := by
    simp only [paramsOk, Bool.and_eq_true, decide_eq_true_eq] at hc
    tauto
  rw [encrypt_vault_eq_mkFile]
  exact ⟨rfl, rfl, rfl,
    mkFile_read5 _ _ _ _ _ _ hb.1.2, rfl,
    mkFile_read9 _ _ _ _ _ _ hb.2.1.2, rfl,
    mkFile_read13 _ _ _ _ _ _ hb.2.2.2,
    mkFile_salt _ _ _ _ _ _ (saltOf_length rng), saltOf_length rng,
    mkFile_nonce _ _ _ _ _ _ (saltOf_length rng) (nonceOf_length rng),
    nonceOf_length rng,
    mkFile_ct _ _ _ _ _ _ (saltOf_length rng) (nonceOf_length rng)⟩

theorem encrypt_vault_layout_witness :
    paramsOk (Params.mk 65536 3 1).m_cost (Params.mk 65536 3 1).t_cost
        (Params.mk 65536 3 1).p_cost = true ∧
    ((encrypt_vault ⟨[]⟩ [1] ⟨65536, 3, 1⟩ (fun _ => 0)).take 4 = MAGIC ∧
      (encrypt_vault ⟨[]⟩ [1] ⟨65536, 3, 1⟩ (fun _ => 0)).getD 4 0 = VERSION ∧
      ((encrypt_vault ⟨[]⟩ [1] ⟨65536, 3, 1⟩ (fun _ => 0)).drop 5).take 4 =
        le32 (Params.mk 65536 3 1).m_cost ∧
      read_u32 (encrypt_vault ⟨[]⟩ [1] ⟨65536, 3, 1⟩ (fun _ => 0)) 5 =
        (Params.mk 65536 3 1).m_cost ∧
      ((encrypt_vault ⟨[]⟩ [1] ⟨65536, 3, 1⟩ (fun _ => 0)).drop 9).take 4 =
        le32 (Params.mk 65536 3 1).t_cost ∧
      read_u32 (encrypt_vault ⟨[]⟩ [1] ⟨65536, 3, 1⟩ (fun _ => 0)) 9 =
        (Params.mk 65536 3 1).t_cost ∧
      ((encrypt_vault ⟨[]⟩ [1] ⟨65536, 3, 1⟩ (fun _ => 0)).drop 13).take 4 =
        le32 (Params.mk 65536 3 1).p_cost ∧
      read_u32 (encrypt_vault ⟨[]⟩ [1] ⟨65536, 3, 1⟩ (fun _ => 0)) 13 =
        (Params.mk 65536 3 1).p_cost ∧
      ((encrypt_vault ⟨[]⟩ [1] ⟨65536, 3, 1⟩ (fun _ => 0)).drop 17).take 16 =
        saltOf (fun _ => 0) ∧
      (saltOf (fun _ => 0)).length = 16 ∧
      ((encrypt_vault ⟨[]⟩ [1] ⟨65536, 3, 1⟩ (fun _ => 0)).drop 33).take 12 =
        nonceOf (fun _ => 0) ∧
      (nonceOf (fun _ => 0)).length = 12 ∧
      (encrypt_vault ⟨[]⟩ [1] ⟨65536, 3, 1⟩ (fun _ => 0)).drop 45 =
        sealAEAD
          (derive_key_from_password [1] (saltOf (fun _ => 0)) ⟨65536, 3, 1⟩)
          (nonceOf (fun _ => 0)) (serVault ⟨[]⟩)) :=
  ⟨by decide,
    encrypt_vault_layout ⟨[]⟩ [1] ⟨65536, 3, 1⟩ (fun _ => 0) (by decide)⟩

/-- C3: `decrypt_vault` performs its validations in the spec's order and fails
with the corresponding error kind at the first violated check: length ≥ 45
else `TruncatedFile`; the 4-byte magic else `BadMagic`; the version byte
against the supported set `{1}` else `UnsupportedVersion`; the parsed cost
parameters else `InvalidParameters`; AEAD opening else
`AuthenticationFailure`; structural deserialization else
`MalformedPayload`. -/
theorem decode_validation_order (data pw : Bytes) :
    (data.length < 45 → decrypt_vault data pw = .error .TruncatedFile) ∧
    (¬ data.length < 45 → data.take 4 ≠ MAGIC →
      decrypt_vault data pw = .error .BadMagic) ∧
    (¬ data.length < 45 → data.take 4 = MAGIC → data.getD 4 0 ≠ VERSION →
      decrypt_vault data pw = .error .UnsupportedVersion) ∧
    (¬ data.length < 45 → data.take 4 = MAGIC → data.getD 4 0 = VERSION →
      ¬ paramsOk (read_u32 data 5) (read_u32 data 9) (read_u32 data 13) →
      decrypt_vault data pw = .error .InvalidParameters) ∧
    (¬ data.length < 45 → data.take 4 = MAGIC → data.getD 4 0 = VERSION →
      paramsOk (read_u32 data 5) (read_u32 data 9) (read_u32 data 13) = true →
      openAEAD
          (derive_key_from_password pw ((data.drop 17).take 16)
            ⟨read_u32 data 5, read_u32 data 9, read_u32 data 13⟩)
          ((data.drop 33).take 12) (data.drop 45) = none →
      decrypt_vault data pw = .error .AuthenticationFailure) ∧
    (∀ pt : Bytes,
      ¬ data.length < 45 → data.take 4 = MAGIC → data.getD 4 0 = VERSION →
      paramsOk (read_u32 data 5) (read_u32 data 9) (read_u32 data 13) = true →
      openAEAD
          (derive_key_from_password pw ((data.drop 17).take 16)
            ⟨read_u32 data 5, read_u32 data 9, read_u32 data 13⟩)
          ((data.drop 33).take 12) (data.drop 45) = some pt →
      deVault pt = none →
      decrypt_vault data pw = .error .MalformedPayload) := by
  refine ⟨?_, ?_, ?_, ?_, ?_, ?_⟩
  · intro h1
    unfold decrypt_vault
    rw [if_pos h1]
  · intro h1 h2
    unfold decrypt_vault
    rw [if_neg h1, if_pos h2]
  · intro h1 h2 h3
    unfold decrypt_vault
    rw [if_neg h1, if_neg (not_not_intro h2), if_pos h3]
  · intro h1 h2 h3 h4
    unfold decrypt_vault
    rw [if_neg h1, if_neg (not_not_intro h2), if_neg (not_not_intro h3),
      if_pos h4]
  · intro h1 h2 h3 h4 h5
    unfold decrypt_vault
    rw [if_neg h1, if_neg (not_not_intro h2), if_neg (not_not_intro h3),
      if_neg (not_not_intro h4), h5]
  · intro pt h1 h2 h3 h4 h5 h6
    unfold decrypt_vault
    rw [if_neg h1, if_neg (not_not_intro h2), if_neg (not_not_intro h3),
      if_neg (not_not_intro h4), h5]
    simp [h6]

theorem decode_validation_order_witness :
    decrypt_vault [] [] = .error .TruncatedFile ∧
    decrypt_vault (List.replicate 45 0) [] = .error .BadMagic ∧
    decrypt_vault (MAGIC ++ 2 :: List.replicate 40 0) [] =
      .error .UnsupportedVersion ∧
    decrypt_vault (MAGIC ++ 1 :: List.replicate 40 0) [] =
      .error .InvalidParameters ∧
    decrypt_vault
        (mkFile 65536 3 1 (List.replicate 16 0) (List.replicate 12 0) []) [] =
      .error .AuthenticationFailure ∧
    decrypt_vault
        (mkFile 65536 3 1 (List.replicate 16 0) (List.replicate 12 0)
          (sealAEAD
            (derive_key_from_password [] (List.replicate 16 0) ⟨65536, 3, 1⟩)
            (List.replicate 12 0) [])) [] =
      .error .MalformedPayload :=
  ⟨(decode_validation_order [] []).1 (by decide),
    (decode_validation_order (List.replicate 45 0) []).2.1 (by decide)
      (by decide),
    (decode_validation_order (MAGIC ++ 2 :: List.replicate 40 0) []).2.2.1
      (by decide) (by decide) (by decide),
    (decode_validation_order (MAGIC ++ 1 :: List.replicate 40 0) []).2.2.2.1
      (by decide) (by decide) (by decide) (by decide),
    (decode_validation_order
        (mkFile 65536 3 1 (List.replicate 16 0) (List.replicate 12 0) [])
        []).2.2.2.2.1 (by decide) (by decide) (by decide) (by decide)
      (by decide),
    (decode_validation_order
        (mkFile 65536 3 1 (List.replicate 16 0) (List.replicate 12 0)
          (sealAEAD
            (derive_key_from_password [] (List.replicate 16 0) ⟨65536, 3, 1⟩)
            (List.replicate 12 0) []))
        []).2.2.2.2.2 [] (by decide) (by decide) (by decide) (by decide)
      (by decide) (by decide)⟩

/-- C10: when no vault file exists at the resolved path, `load_or_init` does
not fail for any entered master password: it returns a fresh empty vault (zero
records) without any decryption and without validating the password (the
source's `Cmd::Add`, `Cmd::List` and `Cmd::Get` all obtain their vault through
`load_or_init`). -/
theorem load_or_init_missing_file (pw : Bytes) :
    load_or_init none pw = .ok ⟨[]⟩ := rfl

/-! ### Vault store -/

theorem upsert_entries (w : Vault) (r : Entry) :
    (upsert w r).entries = (w.entries.filter fun e => e.name ≠ r.name) ++ [r] :=
  rfl

theorem filter_name_upsert (l : List Entry) (nm : Bytes) (r : Entry)
    (hr : r.name = nm) :
    ((l.filter fun e => e.name ≠ r.name) ++ [r]).filter
      (fun e => e.name = nm) = [r] := by
  induction l with
  | nil => simp [hr]
  | cons a l ih =>
      by_cases ha : a.name = r.name
      · rw [List.filter_cons_of_neg (by simp [ha])]
        exact ih
      · rw [List.filter_cons_of_pos (by simp [ha]), List.cons_append,
          List.filter_cons_of_neg
            (by simp only [decide_eq_true_eq]; exact fun hh => ha (hh.trans hr.symm))]
        exact ih

theorem find_name_upsert (l : List Entry) (nm : Bytes) (r : Entry)
    (hr : r.name = nm) :
    ((l.filter fun e => e.name ≠ r.name) ++ [r]).find?
      (fun e => e.name = nm) = some r := by
  rw [List.find?_append]
  have hnone : (l.filter fun e => e.name ≠ r.name).find?
      (fun e => e.name = nm) = none := by
    rw [List.find?_eq_none]
    intro x hx
    rw [List.mem_filter] at hx
    simp only [decide_eq_true_eq] at hx ⊢
    intro hxn
    exact hx.2 (hxn.trans hr.symm)
  rw [hnone]
  simp [List.find?, hr]

/-- C4: after `upsert (upsert v r1) r2` with `r1.name = r2.name`, the store
contains exactly one record named `r1.name`, that record is `r2`, it sits at
the end, and `findEntry` returns it; more generally every upsert removes all
records with an exactly matching name before appending, so it leaves exactly
one record with the upserted name and preserves the at-most-one-record-per-name
invariant. -/
theorem upsert_uniqueness (v : Vault) (r1 r2 : Entry) (h : r1.name = r2.name) :
    (upsert (upsert v r1) r2).entries.filter (fun e => e.name = r1.name) =
      [r2] ∧
    findEntry (upsert (upsert v r1) r2) r1.name = some r2 ∧
    (upsert (upsert v r1) r2).entries.getLast? = some r2 ∧
    (∀ (w : Vault) (r : Entry),
      (upsert w r).entries.filter (fun e => e.name = r.name) = [r]) ∧
    (∀ (w : Vault) (r : Entry) (n : Bytes),
      w.entries.countP (fun e => e.name = n) ≤ 1 →
      (upsert w r).entries.countP (fun e => e.name = n) ≤ 1) := by
  refine ⟨?_, ?_, ?_, ?_, ?_⟩
  · rw [upsert_entries]
    exact filter_name_upsert _ _ _ h.symm
  · rw [findEntry, upsert_entries]
    exact find_name_upsert _ _ _ h.symm
  · rw [upsert_entries]
    exact List.getLast?_concat _
  · intro w r
    rw [upsert_entries]
    exact filter_name_upsert _ _ _ rfl
  · intro w r n hw
    rw [upsert_entries, List.countP_append]
    by_cases hn : r.name = n
    · have h0 : (w.entries.filter fun e => e.name ≠ r.name).countP
          (fun e => e.name = n) = 0 := by
        rw [List.countP_eq_zero]
        intro a ha
        rw [List.mem_filter] at ha
        simp only [decide_eq_true_eq] at ha ⊢
        intro han
        exact ha.2 (han.trans hn.symm)
      have h1 : List.countP (fun e => decide (e.name = n)) [r] = 1 := by
        simp [List.countP_cons, hn]
      rw [h0]
      omega
    · have h1 : List.countP (fun e => decide (e.name = n)) [r] = 0 := by
        simp [List.countP_cons, hn]
      have h2 : (w.entries.filter fun e => e.name ≠ r.name).countP
          (fun e => e.name = n) ≤ 1 :=
        le_trans (List.Sublist.countP_le _ (List.filter_sublist _)) hw
      omega

def wVault : Vault := ⟨[⟨[0], [0], [0], [0], none, none, [0]⟩]⟩

def wR1 : Entry := ⟨[1], [5], [2], [3], none, none, [4]⟩

def wR2 : Entry := ⟨[9], [5], [8], [7], some [6], none, [2]⟩

theorem upsert_uniqueness_witness :
    wR1.name = wR2.name ∧
    ((upsert (upsert wVault wR1) wR2).entries.filter
        (fun e => e.name = wR1.name) = [wR2] ∧
      findEntry (upsert (upsert wVault wR1) wR2) wR1.name = some wR2 ∧
      (upsert (upsert wVault wR1) wR2).entries.getLast? = some wR2 ∧
      (∀ (w : Vault) (r : Entry),
        (upsert w r).entries.filter (fun e => e.name = r.name) = [r]) ∧
      (∀ (w : Vault) (r : Entry) (n : Bytes),
        w.entries.countP (fun e => e.name = n) ≤ 1 →
        (upsert w r).entries.countP (fun e => e.name = n) ≤ 1)) :=
  ⟨rfl, upsert_uniqueness wVault wR1 wR2 rfl⟩

/-! ### Password generator -/

theorem getD_mod_mem (l : Bytes) (h : l ≠ []) (k : Nat) :
    l.getD (k % l.length) 0 ∈ l := by
  have hpos : 0 < l.length := List.length_pos.mpr h
  have hi : k % l.length < l.length := Nat.mod_lt _ hpos
  rw [List.getD_eq_getElem l 0 hi]
  exact List.getElem_mem hi

theorem getD_cons_eraseIdx_perm :
    ∀ (l : Bytes) (i : Nat), i < l.length →
      (l.getD i 0 :: l.eraseIdx i).Perm l := by
  intro l
  induction l with
  | nil => intro i hi; simp at hi
  | cons a t ih =>
      intro i hi
      cases i with
      | zero => exact List.Perm.refl _
      | succ i =>
          have hit : i < t.length := by simpa using hi
          rw [show (a :: t).getD (i + 1) 0 :: (a :: t).eraseIdx (i + 1) =
            t.getD i 0 :: a :: t.eraseIdx i from rfl]
          exact (List.Perm.swap a (t.getD i 0) (t.eraseIdx i)).trans
            ((ih i hit).cons a)

theorem shuffleGo_perm (rng : Nat → Nat) :
    ∀ (fuel ctr : Nat) (l : Bytes), l.length ≤ fuel →
      (shuffleGo rng fuel ctr l).Perm l := by
  intro fuel
  induction fuel with
  | zero =>
      intro ctr l h
      rw [List.length_eq_zero.mp (Nat.le_zero.mp h)]
      exact List.Perm.refl _
  | succ fuel ih =>
      intro ctr l h
      cases l with
      | nil => exact List.Perm.refl _
      | cons a t =>
          have hpos : 0 < (a :: t).length := by simp
          have hi : rng ctr % (a :: t).length < (a :: t).length :=
            Nat.mod_lt _ hpos
          have hlen : ((a :: t).eraseIdx (rng ctr % (a :: t).length)).length ≤
              fuel := by
            rw [List.length_eraseIdx, if_pos hi]
            simp only [List.length_cons] at h ⊢
            omega
          rw [show shuffleGo rng (fuel + 1) ctr (a :: t) =
            (a :: t).getD (rng ctr % (a :: t).length) 0 ::
              shuffleGo rng fuel (ctr + 1)
                ((a :: t).eraseIdx (rng ctr % (a :: t).length)) from rfl]
          exact ((ih (ctr + 1) _ hlen).cons _).trans
            (getD_cons_eraseIdx_perm _ _ hi)

theorem shuffle_perm (rng : Nat → Nat) (ctr : Nat) (l : Bytes) :
    (shuffle rng ctr l).Perm l :=
  shuffleGo_perm rng l.length ctr l (le_refl _)

theorem pickFromPools_length (rng : Nat → Nat) :
    ∀ (ctr : Nat) (pools : List Bytes),
      (pickFromPools rng ctr pools).1.length = pools.length := by
  intro ctr pools
  induction pools generalizing ctr with
  | nil => rfl
  | cons p ps ih => simp [pickFromPools, ih]

theorem pickFromPools_mem (rng : Nat → Nat) :
    ∀ (ctr : Nat) (pools : List Bytes), (∀ p ∈ pools, p ≠ []) →
      ∀ x ∈ (pickFromPools rng ctr pools).1, ∃ p ∈ pools, x ∈ p := by
  intro ctr pools
  induction pools generalizing ctr with
  | nil => intro _ x hx; simp [pickFromPools] at hx
  | cons p ps ih =>
      intro hne x hx
      simp only [pickFromPools] at hx
      rcases List.mem_cons.mp hx with h1 | h1
      · refine ⟨p, List.mem_cons_self _ _, ?_⟩
        rw [h1]
        exact getD_mod_mem p (hne p (List.mem_cons_self _ _)) _
      · obtain ⟨q, hq, hxq⟩ :=
          ih (ctr + 1) (fun p hp => hne p (List.mem_cons_of_mem _ hp)) x h1
        exact ⟨q, List.mem_cons_of_mem _ hq, hxq⟩

theorem pickFromPools_cover (rng : Nat → Nat) :
    ∀ (ctr : Nat) (pools : List Bytes) (p : Bytes), p ∈ pools → p ≠ [] →
      ∃ x ∈ (pickFromPools rng ctr pools).1, x ∈ p := by
  intro ctr pools
  induction pools generalizing ctr with
  | nil => intro p hp; simp at hp
  | cons q ps ih =>
      intro p hp hne
      rcases List.mem_cons.mp hp with h1 | h1
      · subst h1
        refine ⟨p.getD (rng ctr % p.length) 0, ?_, getD_mod_mem p hne _⟩
        simp [pickFromPools]
      · obtain ⟨x, hx1, hx2⟩ := ih (ctr + 1) p h1 hne
        refine ⟨x, ?_, hx2⟩
        simp only [pickFromPools]
        exact List.mem_cons_of_mem _ hx1

theorem fillFrom_length (rng : Nat → Nat) (all : Bytes) :
    ∀ (ctr n : Nat), (fillFrom rng all ctr n).1.length = n := by
  intro ctr n
  induction n generalizing ctr with
  | zero => rfl
  | succ n ih => simp [fillFrom, ih]

theorem fillFrom_mem (rng : Nat → Nat) (all : Bytes) (h : all ≠ []) :
    ∀ (ctr n : Nat), ∀ x ∈ (fillFrom rng all ctr n).1, x ∈ all := by
  intro ctr n
  induction n generalizing ctr with
  | zero => intro x hx; simp [fillFrom] at hx
  | succ n ih =>
      intro x hx
      simp only [fillFrom] at hx
      rcases List.mem_cons.mp hx with h1 | h1
      · rw [h1]
        exact getD_mod_mem all h _
      · exact ih (ctr + 1) x h1

/-- C5: every successful result of `generate_password 20 false false` is a
string of exactly 20 characters containing at least one lowercase letter, one
uppercase letter and one digit, and no character from the fixed ambiguous
set. -/
theorem generate_password_length_coverage (rng : Nat → Nat) (s : Bytes)
    (h : generate_password 20 false false rng = .ok s) :
    s.length = 20 ∧ (∃ c ∈ s, c ∈ LOWER_CHARS) ∧ (∃ c ∈ s, c ∈ UPPER_CHARS) ∧
      (∃ c ∈ s, c ∈ DIGIT_CHARS) ∧ ∀ c ∈ s, c ∉ AMBIGUOUS := by
  have hrw : generate_password 20 false false rng =
      .ok (shuffle rng
        (fillFrom rng
          ([stripAmb LOWER_CHARS, stripAmb UPPER_CHARS,
            stripAmb DIGIT_CHARS].flatten)
          (pickFromPools rng 0
            [stripAmb LOWER_CHARS, stripAmb UPPER_CHARS,
              stripAmb DIGIT_CHARS]).2
          (20 - (pickFromPools rng 0
            [stripAmb LOWER_CHARS, stripAmb UPPER_CHARS,
              stripAmb DIGIT_CHARS]).1.length)).2
        ((pickFromPools rng 0
            [stripAmb LOWER_CHARS, stripAmb UPPER_CHARS,
              stripAmb DIGIT_CHARS]).1 ++
          (fillFrom rng
            ([stripAmb LOWER_CHARS, stripAmb UPPER_CHARS,
              stripAmb DIGIT_CHARS].flatten)
            (pickFromPools rng 0
              [stripAmb LOWER_CHARS, stripAmb UPPER_CHARS,
                stripAmb DIGIT_CHARS]).2
            (20 - (pickFromPools rng 0
              [stripAmb LOWER_CHARS, stripAmb UPPER_CHARS,
                stripAmb DIGIT_CHARS]).1.length)).1)) := rfl
  rw [hrw] at h
  injection h with h
  subst h
  have hPne : ∀ p ∈ [stripAmb LOWER_CHARS, stripAmb UPPER_CHARS,
      stripAmb DIGIT_CHARS], p ≠ ([] : Bytes) := by decide
  have hAne : ([stripAmb LOWER_CHARS, stripAmb UPPER_CHARS,
      stripAmb DIGIT_CHARS] : List Bytes).flatten ≠ [] := by decide
  have hnoamb : ∀ p ∈ [stripAmb LOWER_CHARS, stripAmb UPPER_CHARS,
      stripAmb DIGIT_CHARS], ∀ x ∈ p, x ∉ AMBIGUOUS := by decide
  have hperm := shuffle_perm rng
    (fillFrom rng
      ([stripAmb LOWER_CHARS, stripAmb UPPER_CHARS,
        stripAmb DIGIT_CHARS].flatten)
      (pickFromPools rng 0
        [stripAmb LOWER_CHARS, stripAmb UPPER_CHARS, stripAmb DIGIT_CHARS]).2
      (20 - (pickFromPools rng 0
        [stripAmb LOWER_CHARS, stripAmb UPPER_CHARS,
          stripAmb DIGIT_CHARS]).1.length)).2
    ((pickFromPools rng 0
        [stripAmb LOWER_CHARS, stripAmb UPPER_CHARS, stripAmb DIGIT_CHARS]).1 ++
      (fillFrom rng
        ([stripAmb LOWER_CHARS, stripAmb UPPER_CHARS,
          stripAmb DIGIT_CHARS].flatten)
        (pickFromPools rng 0
          [stripAmb LOWER_CHARS, stripAmb UPPER_CHARS, stripAmb DIGIT_CHARS]).2
        (20 - (pickFromPools rng 0
          [stripAmb LOWER_CHARS, stripAmb UPPER_CHARS,
            stripAmb DIGIT_CHARS]).1.length)).1)
  have hPKlen : (pickFromPools rng 0
      [stripAmb LOWER_CHARS, stripAmb UPPER_CHARS,
        stripAmb DIGIT_CHARS]).1.length = 3 :=
    pickFromPools_length rng 0 _
  refine ⟨?_, ?_, ?_, ?_, ?_⟩
  · rw [hperm.length_eq, List.length_append, hPKlen, fillFrom_length]
  · obtain ⟨x, hx1, hx2⟩ := pickFromPools_cover rng 0
      [stripAmb LOWER_CHARS, stripAmb UPPER_CHARS, stripAmb DIGIT_CHARS]
      (stripAmb LOWER_CHARS) (List.mem_cons_self _ _) (by decide)
    exact ⟨x, hperm.mem_iff.mpr (List.mem_append_left _ hx1),
      (List.mem_filter.mp hx2).1⟩
  · obtain ⟨x, hx1, hx2⟩ := pickFromPools_cover rng 0
      [stripAmb LOWER_CHARS, stripAmb UPPER_CHARS, stripAmb DIGIT_CHARS]
      (stripAmb UPPER_CHARS) (by simp) (by decide)
    exact ⟨x, hperm.mem_iff.mpr (List.mem_append_left _ hx1),
      (List.mem_filter.mp hx2).1⟩
  · obtain ⟨x, hx1, hx2⟩ := pickFromPools_cover rng 0
      [stripAmb LOWER_CHARS, stripAmb UPPER_CHARS, stripAmb DIGIT_CHARS]
      (stripAmb DIGIT_CHARS) (by simp) (by decide)
    exact ⟨x, hperm.mem_iff.mpr (List.mem_append_left _ hx1),
      (List.mem_filter.mp hx2).1⟩
  · intro c hc
    rcases List.mem_append.mp (hperm.mem_iff.mp hc) with h1 | h1
    · obtain ⟨p, hp, hcp⟩ := pickFromPools_mem rng 0 _ hPne c h1
      exact hnoamb p hp c hcp
    · have hcall := fillFrom_mem rng _ hAne _ _ c h1
      obtain ⟨p, hp, hcp⟩ := List.mem_flatten.mp hcall
      exact hnoamb p hp c hcp

theorem generate_password_length_coverage_witness :
    generate_password 20 false false (fun _ => 0) =
      .ok (97 :: 65 :: 50 :: List.replicate 17 97) ∧
    ((97 :: 65 :: 50 :: List.replicate 17 97) : Bytes).length = 20 ∧
    (∃ c ∈ (97 :: 65 :: 50 :: List.replicate 17 97 : Bytes),
      c ∈ LOWER_CHARS) ∧
    (∃ c ∈ (97 :: 65 :: 50 :: List.replicate 17 97 : Bytes),
      c ∈ UPPER_CHARS) ∧
    (∃ c ∈ (97 :: 65 :: 50 :: List.replicate 17 97 : Bytes),
      c ∈ DIGIT_CHARS) ∧
    ∀ c ∈ (97 :: 65 :: 50 :: List.replicate 17 97 : Bytes), c ∉ AMBIGUOUS :=
  ⟨by rfl,
    (generate_password_length_coverage (fun _ => 0)
      (97 :: 65 :: 50 :: List.replicate 17 97) (by rfl)).1,
    (generate_password_length_coverage (fun _ => 0)
      (97 :: 65 :: 50 :: List.replicate 17 97) (by rfl)).2.1,
    (generate_password_length_coverage (fun _ => 0)
      (97 :: 65 :: 50 :: List.replicate 17 97) (by rfl)).2.2.1,
    (generate_password_length_coverage (fun _ => 0)
      (97 :: 65 :: 50 :: List.replicate 17 97) (by rfl)).2.2.2.1,
    (generate_password_length_coverage (fun _ => 0)
      (97 :: 65 :: 50 :: List.replicate 17 97) (by rfl)).2.2.2.2⟩

/-- C6: if any active pool is empty after stripping the ambiguous characters,
the generator fails with `EmptyPool` rather than silently omitting the
category (stated for arbitrary candidate pools, since with the source's
default pools stripping never empties any of them); moreover with the default
sets the letter and digit pools always retain unambiguous members, so only the
symbol pool could ever be emptied. -/
theorem generate_password_empty_pool (l0 u0 d0 s0 : Bytes) (len : Nat)
    (us : Bool) (rng : Nat → Nat) (hlen : ¬ len < 4)
    (hempty : ((activePools l0 u0 d0 s0 us false).any
      fun p => p.isEmpty) = true) :
    generate_password_pools l0 u0 d0 s0 len us false rng = .error .EmptyPool ∧
    stripAmb LOWER_CHARS ≠ [] ∧ stripAmb UPPER_CHARS ≠ [] ∧
      stripAmb DIGIT_CHARS ≠ [] := by
  refine ⟨?_, by decide, by decide, by decide⟩
  unfold generate_password_pools
  rw [if_neg hlen]
  simp [hempty]

theorem generate_password_empty_pool_witness :
    ¬ (10 : Nat) < 4 ∧
    ((activePools LOWER_CHARS UPPER_CHARS DIGIT_CHARS [40, 41] true false).any
      fun p => p.isEmpty) = true ∧
    (generate_password_pools LOWER_CHARS UPPER_CHARS DIGIT_CHARS [40, 41]
        10 true false (fun _ => 0) = .error .EmptyPool ∧
      stripAmb LOWER_CHARS ≠ [] ∧ stripAmb UPPER_CHARS ≠ [] ∧
        stripAmb DIGIT_CHARS ≠ []) :=
  ⟨by decide, by decide,
    generate_password_empty_pool LOWER_CHARS UPPER_CHARS DIGIT_CHARS [40, 41]
      10 true (fun _ => 0) (by decide) (by decide)⟩

/-- C7: for every requested length strictly below 4 and any flag values, the
generator fails with `InvalidLength`. -/
theorem generate_password_min_length (len : Nat) (us aa : Bool)
    (rng : Nat → Nat) (h : len < 4) :
    generate_password len us aa rng = .error .InvalidLength := by
  unfold generate_password generate_password_pools
  rw [if_pos h]

theorem generate_password_min_length_witness :
    (3 : Nat) < 4 ∧
    generate_password 3 false false (fun _ => 0) = .error .InvalidLength :=
  ⟨by decide,
    generate_password_min_length 3 false false (fun _ => 0) (by decide)⟩

end Rustpass
